import Mathlib

/-!
# Verification of the replay utilities (`pkg/service/replay/utils.go`)

This file gives a shallow embedding, in Lean 4, of the functions of
`pkg/service/replay/utils.go`:

* `LeftJoinNoise` — merging a global noise configuration with a per-test-set
  override.  Go maps are modelled as association lists with unique keys;
  because the Go code writes through an *aliased* map header
  (`noise := globalNoise` copies the reference, not the contents), we give
  both a value-level model (the value computed for the returned map, which by
  aliasing is also the value the caller's base holds after the call) and a
  small heap model that makes the aliasing itself visible.
* `replaceHostToIP` — rewriting the host of a captured URL.  The Go code uses
  `net/url`; we model `url.Parse`, `URL.Hostname`, `strings.Replace` and
  `URL.String` for the fragment of URL syntax the replay code deals with:
  absolute URLs `scheme://[userinfo@]host[:port][/path][?query]` over
  space-free ASCII (percent-escaping is not modelled; Go's parser accepts
  more forms, e.g. opaque and scheme-relative URLs, which are outside this
  embedding).
* `SimulateRequest` — protocol dispatch of the request emulator.  The actual
  transport `pkg.SimulateHTTP` is external to the embedded file and is kept
  as an explicit function parameter, so theorems quantify over every
  possible transport.
-/

namespace Replay

/-! ## Association lists: the model of Go maps

A Go `map[string]V` is modelled as an association list `List (String × V)`
whose keys are unique (`NodupKeys`).  `lookupA` is map indexing, `insertA`
is map assignment (`m[k] = v`): it overwrites the binding in place when the
key is present and appends otherwise. -/

def lookupA {α : Type} : List (String × α) → String → Option α
  | [], _ => none
  | (k', v) :: rest, k => if k' = k then some v else lookupA rest k

def insertA {α : Type} : List (String × α) → String → α → List (String × α)
  | [], k, v => [(k, v)]
  | (k', v') :: rest, k, v =>
    if k' = k then (k, v) :: rest else (k', v') :: insertA rest k v

def NodupKeys {α : Type} (m : List (String × α)) : Prop :=
  (m.map Prod.fst).Nodup

instance {α : Type} (m : List (String × α)) : Decidable (NodupKeys m) := by
  unfold NodupKeys; infer_instance

theorem lookupA_insertA_self {α : Type} (m : List (String × α)) (k : String) (v : α) :
    lookupA (insertA m k v) k = some v := by
  induction m with
  | nil => simp [insertA, lookupA]
  | cons p rest ih =>
    obtain ⟨k', v'⟩ := p
    by_cases h : k' = k
    · simp [insertA, lookupA, h]
    · simp [insertA, lookupA, h, ih]

theorem lookupA_insertA_ne {α : Type} (m : List (String × α)) (k k' : String) (v : α)
    (h : k' ≠ k) : lookupA (insertA m k' v) k = lookupA m k := by
  induction m with
  | nil => simp [insertA, lookupA, h]
  | cons p rest ih =>
    obtain ⟨k₀, v₀⟩ := p
    by_cases hk : k₀ = k'
    · subst hk; simp [insertA, lookupA, h]
    · by_cases hk2 : k₀ = k <;> simp [insertA, lookupA, hk, hk2, Ne.symm h, ih]

theorem insertA_lookupA_eq {α : Type} (m : List (String × α)) (k : String) (v : α)
    (h : lookupA m k = some v) : insertA m k v = m := by
  induction m with
  | nil => simp [lookupA] at h
  | cons p rest ih =>
    obtain ⟨k', v'⟩ := p
    by_cases hk : k' = k
    · subst hk
      simp [lookupA] at h
      simp [insertA, h]
    · simp [lookupA, hk] at h
      simp [insertA, hk, ih h]

theorem insertA_insertA_same {α : Type} (m : List (String × α)) (k : String) (v v' : α) :
    insertA (insertA m k v) k v' = insertA m k v' := by
  induction m with
  | nil => simp [insertA]
  | cons p rest ih =>
    obtain ⟨k₀, v₀⟩ := p
    by_cases hk : k₀ = k <;> simp [insertA, hk, ih]

theorem lookupA_eq_none_of_not_mem {α : Type} (m : List (String × α)) (k : String)
    (h : k ∉ m.map Prod.fst) : lookupA m k = none := by
  induction m with
  | nil => rfl
  | cons p rest ih =>
    obtain ⟨k', v'⟩ := p
    rw [List.map_cons] at h
    have h1 : k' ≠ k := fun he => h (by simp [he])
    have h2 : k ∉ rest.map Prod.fst := fun hm => h (by simp [hm])
    simp [lookupA, h1, ih h2]

theorem lookupA_of_mem_nodup {α : Type} (m : List (String × α)) (k : String) (v : α)
    (hnd : NodupKeys m) (hmem : (k, v) ∈ m) : lookupA m k = some v := by
  induction m with
  | nil => simp at hmem
  | cons p rest ih =>
    obtain ⟨k', v'⟩ := p
    have hnd' : NodupKeys rest := (List.nodup_cons.mp hnd).2
    have hknot : k' ∉ rest.map Prod.fst := (List.nodup_cons.mp hnd).1
    rcases List.mem_cons.mp hmem with h | h
    · cases h
      simp [lookupA]
    · have hk : k' ≠ k := by
        intro he; subst he
        exact hknot (List.mem_map_of_mem Prod.fst h)
      simp [lookupA, hk, ih hnd' h]

/-! ## `LeftJoinNoise`: value-level model

`config.GlobalNoise` in Go is `map[string]map[string][]string`: a map from a
scope (`"body"`, `"header"`) to a map from field name to a list of regular
expression patterns.  We model the inner map as `FieldMap` and the outer
value as `GlobalNoise`.

The Go source is

```
func LeftJoinNoise(globalNoise config.GlobalNoise, tsNoise config.GlobalNoise) config.GlobalNoise {
    noise := globalNoise
    for field, regexArr := range tsNoise["body"] {
        noise["body"][field] = regexArr
    }
    for field, regexArr := range tsNoise["header"] {
        noise["header"][field] = regexArr
    }
    return noise
}
```

`noise := globalNoise` copies the map *header*, so `noise` aliases the
caller's `globalNoise`; the returned map and the argument are one object and
the value computed below is also the value the caller's base holds after the
call (the heap model below exhibits this).  `noise["body"][field] = regexArr`
is an assignment through `noise["body"]`; when the scope `"body"` is absent
that expression is the nil map and the assignment panics
("assignment to entry in nil map"), which the model signals with `none`. -/

abbrev FieldMap := List (String × List String)

abbrev GlobalNoise := List (String × FieldMap)

/-- One iteration block `for field, regexArr := range src { noise[scope][field] = regexArr }`.
`none` models the Go runtime panic on assignment into a nil inner map. -/
def writeAll (noise : GlobalNoise) (scope : String) : FieldMap → Option GlobalNoise
  | [] => some noise
  | (field, arr) :: rest =>
    match lookupA noise scope with
    | none => none
    | some inner => writeAll (insertA noise scope (insertA inner field arr)) scope rest

/-- Value-level model of `LeftJoinNoise`: the value of the returned map
(equivalently, by aliasing, of the caller's base after the call), or `none`
if the Go code panics. -/
def LeftJoinNoise (globalNoise tsNoise : GlobalNoise) : Option GlobalNoise :=
  match writeAll globalNoise "body" ((lookupA tsNoise "body").getD []) with
  | none => none
  | some n1 => writeAll n1 "header" ((lookupA tsNoise "header").getD [])

/-- Indexing `n[scope][field]` on a noise value; `none` when the scope or the
field is absent. -/
def noiseLookup (n : GlobalNoise) (scope field : String) : Option (List String) :=
  (lookupA n scope).bind fun inner => lookupA inner field

/-- The net effect of one override loop on the affected inner map. -/
def writeFields (inner : FieldMap) (src : FieldMap) : FieldMap :=
  src.foldl (fun m p => insertA m p.1 p.2) inner

theorem writeAll_eq (src : FieldMap) (noise : GlobalNoise) (scope : String) (inner : FieldMap)
    (h : lookupA noise scope = some inner) :
    writeAll noise scope src = some (insertA noise scope (writeFields inner src)) := by
  induction src generalizing noise inner with
  | nil =>
    simp [writeAll, writeFields, insertA_lookupA_eq _ _ _ h]
  | cons p rest ih =>
    obtain ⟨field, arr⟩ := p
    rw [writeAll, h]
    show writeAll (insertA noise scope (insertA inner field arr)) scope rest = _
    rw [ih (insertA noise scope (insertA inner field arr)) (insertA inner field arr)
      (lookupA_insertA_self ..)]
    rw [insertA_insertA_same]
    rfl

theorem writeAll_lookup_ne (src : FieldMap) (noise : GlobalNoise) (s : String)
    (r : GlobalNoise) (s' : String) (h : writeAll noise s src = some r) (hne : s' ≠ s) :
    lookupA r s' = lookupA noise s' := by
  induction src generalizing noise with
  | nil =>
    rw [writeAll] at h
    cases h
    rfl
  | cons p rest ih =>
    obtain ⟨field, arr⟩ := p
    rw [writeAll] at h
    cases hl : lookupA noise s with
    | none => rw [hl] at h; cases h
    | some inner =>
      rw [hl] at h
      have h' : writeAll (insertA noise s (insertA inner field arr)) s rest = some r := h
      rw [ih _ h', lookupA_insertA_ne _ _ _ _ (Ne.symm hne)]

theorem lookupA_writeFields_not_mem (src : FieldMap) (inner : FieldMap) (f : String)
    (h : lookupA src f = none) :
    lookupA (writeFields inner src) f = lookupA inner f := by
  induction src generalizing inner with
  | nil => rfl
  | cons p rest ih =>
    obtain ⟨f', a'⟩ := p
    rw [lookupA] at h
    by_cases hf : f' = f
    · simp [hf] at h
    · rw [if_neg hf] at h
      show lookupA (writeFields (insertA inner f' a') rest) f = _
      rw [ih _ h, lookupA_insertA_ne _ _ _ _ hf]

theorem lookupA_writeFields_mem (src : FieldMap) (inner : FieldMap) (f : String)
    (a : List String) (hnd : NodupKeys src) (h : lookupA src f = some a) :
    lookupA (writeFields inner src) f = some a := by
  induction src generalizing inner with
  | nil => cases h
  | cons p rest ih =>
    obtain ⟨f', a'⟩ := p
    have hnd' : NodupKeys rest := (List.nodup_cons.mp hnd).2
    rw [lookupA] at h
    by_cases hf : f' = f
    · rw [if_pos hf] at h
      cases h
      subst hf
      have hrest : lookupA rest f' = none := by
        apply lookupA_eq_none_of_not_mem
        exact (List.nodup_cons.mp hnd).1
      show lookupA (writeFields (insertA inner f' a) rest) f' = some a
      rw [lookupA_writeFields_not_mem _ _ _ hrest, lookupA_insertA_self]
    · rw [if_neg hf] at h
      exact ih _ hnd' h

/-- When the base map has the scope, the result of the override loop on every
field: the override's value where present, the base's value otherwise. -/
theorem writeAll_lookup (src : FieldMap) (noise : GlobalNoise) (s : String)
    (r : GlobalNoise) (hnd : NodupKeys src) (h : writeAll noise s src = some r) (f : String) :
    noiseLookup r s f = (lookupA src f <|> noiseLookup noise s f) := by
  cases src with
  | nil =>
    have h' : some noise = some r := h
    cases h'
    simp [lookupA]
  | cons p ps =>
    cases hl : lookupA noise s with
    | none =>
      rw [writeAll, hl] at h
      cases h
    | some inner =>
      rw [writeAll_eq _ _ _ _ hl] at h
      cases h
      rw [noiseLookup, lookupA_insertA_self, Option.some_bind]
      cases hf : lookupA (p :: ps) f with
      | some a =>
        rw [lookupA_writeFields_mem _ _ _ _ hnd hf]
        simp
      | none =>
        rw [lookupA_writeFields_not_mem _ _ _ hf]
        simp [noiseLookup, hl]

/-- Writing bindings that are already present, with their current values, is
a no-op. -/
theorem writeAll_id (src : FieldMap) (noise : GlobalNoise) (s : String)
    (h : ∀ p ∈ src, noiseLookup noise s p.1 = some p.2) :
    writeAll noise s src = some noise := by
  induction src with
  | nil => rfl
  | cons p rest ih =>
    obtain ⟨f, a⟩ := p
    have hp : noiseLookup noise s f = some a := h (f, a) (List.mem_cons_self ..)
    rw [noiseLookup] at hp
    cases hl : lookupA noise s with
    | none => rw [hl] at hp; cases hp
    | some inner =>
      rw [hl, Option.some_bind] at hp
      rw [writeAll, hl]
      show writeAll (insertA noise s (insertA inner f a)) s rest = some noise
      rw [insertA_lookupA_eq _ _ _ hp, insertA_lookupA_eq _ _ _ hl]
      exact ih fun q hq => h q (List.mem_cons_of_mem _ hq)

theorem LeftJoinNoise_inv (b o r : GlobalNoise) (h : LeftJoinNoise b o = some r) :
    ∃ n1, writeAll b "body" ((lookupA o "body").getD []) = some n1 ∧
      writeAll n1 "header" ((lookupA o "header").getD []) = some r := by
  rw [LeftJoinNoise] at h
  cases hb : writeAll b "body" ((lookupA o "body").getD []) with
  | none => rw [hb] at h; cases h
  | some n1 => rw [hb] at h; exact ⟨n1, rfl, h⟩

/-- The effective pattern sequence for a field after the merge, per the spec:
the override's where the override binds the field, the base's otherwise. -/
def mergedField (b o : GlobalNoise) (scope f : String) : Option (List String) :=
  lookupA ((lookupA o scope).getD []) f <|> noiseLookup b scope f

theorem noiseLookup_congr (r n : GlobalNoise) (s f : String)
    (h : lookupA r s = lookupA n s) : noiseLookup r s f = noiseLookup n s f := by
  rw [noiseLookup, noiseLookup, h]

/-- Field-level characterisation of a successful merge, for both scopes. -/
theorem LeftJoinNoise_spec (b o r : GlobalNoise)
    (hbnd : NodupKeys ((lookupA o "body").getD []))
    (hhnd : NodupKeys ((lookupA o "header").getD []))
    (h : LeftJoinNoise b o = some r) :
    (∀ f, noiseLookup r "body" f = mergedField b o "body" f) ∧
    (∀ f, noiseLookup r "header" f = mergedField b o "header" f) := by
  obtain ⟨n1, h1, h2⟩ := LeftJoinNoise_inv b o r h
  have hbody_binding : lookupA r "body" = lookupA n1 "body" :=
    writeAll_lookup_ne _ _ _ _ _ h2 (by decide)
  have hheader_binding : lookupA n1 "header" = lookupA b "header" :=
    writeAll_lookup_ne _ _ _ _ _ h1 (by decide)
  constructor
  · intro f
    rw [noiseLookup_congr _ _ _ _ hbody_binding]
    rw [writeAll_lookup _ _ _ _ hbnd h1 f]
    rfl
  · intro f
    rw [writeAll_lookup _ _ _ _ hhnd h2 f]
    rw [mergedField, noiseLookup_congr _ _ _ _ hheader_binding]

/-! ## `LeftJoinNoise`: heap model

The Go statement `noise := globalNoise` copies only the map header, so
`noise` and the caller's `globalNoise` denote the same heap object, and the
inner scope maps reached through it are shared as well.  To make that
side effect expressible we model the heap explicitly: `inners` is the store
of inner (field → patterns) map objects, `outers` the store of outer
(scope → inner reference) map objects, and a `GlobalNoise` variable is an
index into `outers`.  The override's inner maps are read out before each
loop; this matches Go's `range` for the inputs our theorems use, where the
override's inner objects are distinct from the base's. -/

structure Heap where
  inners : List FieldMap
  outers : List (List (String × Nat))
  deriving DecidableEq

def Heap.readInner (h : Heap) (i : Nat) : FieldMap := h.inners.getD i []

def Heap.writeInner (h : Heap) (i : Nat) (m : FieldMap) : Heap :=
  { h with inners := h.inners.set i m }

/-- One loop `for field, regexArr := range src { noise[scope][field] = regexArr }`
executed against the heap: `outerVal` is the contents of the outer map object
`noise` refers to; an absent scope is Go's nil map and assigning through it
panics (`none`). -/
def writeScopeGo (h : Heap) (outerVal : List (String × Nat)) (scope : String) :
    FieldMap → Option Heap
  | [] => some h
  | (field, arr) :: rest =>
    match lookupA outerVal scope with
    | none => none
    | some i => writeScopeGo (h.writeInner i (insertA (h.readInner i) field arr))
        outerVal scope rest

/-- Heap-level model of `LeftJoinNoise`: `g` and `t` are the references held
by the arguments `globalNoise` and `tsNoise`.  The returned reference is `g`
itself, because `noise := globalNoise` aliases rather than copies. -/
def leftJoinNoiseGo (h : Heap) (g t : Nat) : Option (Heap × Nat) :=
  let gOuter := h.outers.getD g []
  let tOuter := h.outers.getD t []
  let tBody := match lookupA tOuter "body" with
    | some i => h.readInner i
    | none => []
  match writeScopeGo h gOuter "body" tBody with
  | none => none
  | some h1 =>
    let tHeader := match lookupA tOuter "header" with
      | some i => h1.readInner i
      | none => []
    match writeScopeGo h1 gOuter "header" tHeader with
    | none => none
    | some h2 => some (h2, g)

/-! ## Sample noise maps used by the witness theorems -/

def sampleBase : GlobalNoise := [("body", [("x", ["a"])]), ("header", [])]

def sampleOverride : GlobalNoise := [("body", [("x", []), ("y", ["b"])])]

def sampleMerged : GlobalNoise := [("body", [("x", []), ("y", ["b"])]), ("header", [])]

/-! ## Claims about `LeftJoinNoise` -/

/-- Claim C1 (refuted — the code mutates the base): running `LeftJoinNoise` on
a heap where the base map (`outers[0]`) has an empty `"body"` scope object
(`inners[0]`) and the override (`outers[1]`) binds `"f"` in its own body
object (`inners[2]`) writes the binding `"f" ↦ ["r"]` into the base's own
body object: before the call the base's body scope is empty, after the call
it contains the override's binding, because `noise := globalNoise` aliases
the caller's map instead of copying it. -/
theorem leftJoinNoiseGo_mutates_base :
    (⟨[[], [], [("f", ["r"])], []],
      [[("body", 0), ("header", 1)], [("body", 2), ("header", 3)]]⟩ : Heap).readInner 0
      = [] ∧
    leftJoinNoiseGo
      ⟨[[], [], [("f", ["r"])], []],
       [[("body", 0), ("header", 1)], [("body", 2), ("header", 3)]]⟩ 0 1 =
      some (⟨[[("f", ["r"])], [], [("f", ["r"])], []],
        [[("body", 0), ("header", 1)], [("body", 2), ("header", 3)]]⟩, 0) ∧
    (⟨[[("f", ["r"])], [], [("f", ["r"])], []],
      [[("body", 0), ("header", 1)], [("body", 2), ("header", 3)]]⟩ : Heap).readInner 0
      = [("f", ["r"])] := by
  refine ⟨rfl, by decide, rfl⟩

/-- Claim C2: in every successful merge, each scope of the result maps every
field bound by the override (including to the empty pattern list) to the
override's pattern sequence and every other field to the base's binding; and
merging with an empty override returns the base unchanged. -/
theorem LeftJoinNoise_override_semantics (b o r : GlobalNoise)
    (hbnd : NodupKeys ((lookupA o "body").getD []))
    (hhnd : NodupKeys ((lookupA o "header").getD []))
    (h : LeftJoinNoise b o = some r) :
    ((∀ f, noiseLookup r "body" f = mergedField b o "body" f) ∧
     (∀ f, noiseLookup r "header" f = mergedField b o "header" f)) ∧
    LeftJoinNoise b [] = some b :=
  ⟨LeftJoinNoise_spec b o r hbnd hhnd h, rfl⟩

/-- Concrete instance of claim C2 at `sampleBase`/`sampleOverride`: the
override sets `"x"` to the empty pattern list (which survives in the result)
and adds `"y"`, while the base-only `"header"` scope is preserved. -/
theorem LeftJoinNoise_override_semantics_witness :
    (NodupKeys ((lookupA sampleOverride "body").getD []) ∧
     NodupKeys ((lookupA sampleOverride "header").getD []) ∧
     LeftJoinNoise sampleBase sampleOverride = some sampleMerged) ∧
    ((∀ f, noiseLookup sampleMerged "body" f =
        mergedField sampleBase sampleOverride "body" f) ∧
     (∀ f, noiseLookup sampleMerged "header" f =
        mergedField sampleBase sampleOverride "header" f)) ∧
    LeftJoinNoise sampleBase [] = some sampleBase :=
  ⟨⟨by decide, by decide, by decide⟩,
   LeftJoinNoise_override_semantics sampleBase sampleOverride sampleMerged
     (by decide) (by decide) (by decide)⟩

/-- Claim C3 (refuted — the code can panic): merging a base with no `"body"`
scope against an override whose `"body"` scope is nonempty reaches Go's
"assignment to entry in nil map" panic (modelled as `none`) instead of
returning a result. -/
theorem LeftJoinNoise_none_on_absent_scope :
    LeftJoinNoise [] [("body", [("f", ["r"])])] = none := by decide

/-- Claim C4: merging is idempotent — applying the same override to the
result of a successful merge returns that result unchanged. -/
theorem LeftJoinNoise_idem (b o r : GlobalNoise)
    (hbnd : NodupKeys ((lookupA o "body").getD []))
    (hhnd : NodupKeys ((lookupA o "header").getD []))
    (h : LeftJoinNoise b o = some r) :
    LeftJoinNoise r o = some r := by
  obtain ⟨hbody, hheader⟩ := LeftJoinNoise_spec b o r hbnd hhnd h
  have hb2 : writeAll r "body" ((lookupA o "body").getD []) = some r := by
    apply writeAll_id
    intro p hp
    obtain ⟨f, a⟩ := p
    have hl : lookupA ((lookupA o "body").getD []) f = some a :=
      lookupA_of_mem_nodup _ _ _ hbnd hp
    rw [hbody f, mergedField, hl]
    rfl
  have hh2 : writeAll r "header" ((lookupA o "header").getD []) = some r := by
    apply writeAll_id
    intro p hp
    obtain ⟨f, a⟩ := p
    have hl : lookupA ((lookupA o "header").getD []) f = some a :=
      lookupA_of_mem_nodup _ _ _ hhnd hp
    rw [hheader f, mergedField, hl]
    rfl
  rw [LeftJoinNoise, hb2]
  exact hh2

/-- Concrete instance of claim C4 at `sampleBase`/`sampleOverride`. -/
theorem LeftJoinNoise_idem_witness :
    (NodupKeys ((lookupA sampleOverride "body").getD []) ∧
     NodupKeys ((lookupA sampleOverride "header").getD []) ∧
     LeftJoinNoise sampleBase sampleOverride = some sampleMerged) ∧
    LeftJoinNoise sampleMerged sampleOverride = some sampleMerged :=
  ⟨⟨by decide, by decide, by decide⟩,
   LeftJoinNoise_idem sampleBase sampleOverride sampleMerged
     (by decide) (by decide) (by decide)⟩

/-! ## `replaceHostToIP`: URL model

The Go function is

```
func replaceHostToIP(currentURL string, ipAddress string) (string, error) {
    parsedURL, err := url.Parse(currentURL)
    if err != nil {
        return currentURL, err
    }
    if ipAddress == "" {
        return currentURL, fmt.Errorf("failed to replace url in case of docker env")
    }
    parsedURL.Host = strings.Replace(parsedURL.Host, parsedURL.Hostname(), ipAddress, 1)
    return parsedURL.String(), nil
}
```

Strings are modelled as `List Char`.  `net/url` is modelled for the URL
fragment the replay path deals with: absolute authority-form URLs
`scheme://[userinfo@]host[:port][/path][?query]` without percent-escapes,
fragments, bracketed (IPv6) hosts, or embedded spaces/control characters.
As in Go, the port is validated (the characters after the last `:` of the
host must be digits), `Hostname()` strips from the first `:` of `Host`
(`stripPort`), and `strings.Replace(s, old, new, 1)` rewrites the first
occurrence of `old` (prepending `new` when `old` is empty).  Inputs outside
this fragment are parse errors of the model.  The general theorems below
take the parse outcome as a hypothesis, so they depend on the shape of the
parsed value, not on the parser's acceptance domain. -/

def isCtlSpace (c : Char) : Bool := c.toNat < 32 || c = ' ' || c.toNat == 127

def isSchemeChar (c : Char) : Bool := c.isAlpha || c.isDigit || c = '+' || c = '-' || c = '.'

structure URLm where
  scheme : List Char
  userinfo : List Char
  host : List Char
  path : List Char
  query : List Char
  hasUser : Bool
  forceQuery : Bool
  deriving DecidableEq

/-- Split `scheme://rest`; `none` when the input is not in that form. -/
def splitScheme (cs : List Char) : Option (List Char × List Char) :=
  match cs.dropWhile (· ≠ ':'), cs.takeWhile (· ≠ ':') with
  | ':' :: '/' :: '/' :: after, c0 :: rest =>
    if c0.isAlpha && rest.all isSchemeChar then some (c0 :: rest, after) else none
  | _, _ => none

/-- Split the query at the first `?`; a lone trailing `?` sets the
force-query flag, as in Go. -/
def splitQuery (after : List Char) : List Char × List Char × Bool :=
  if after.getLast? == some '?' && !after.dropLast.contains '?' then
    (after.dropLast, [], true)
  else
    (after.takeWhile (· ≠ '?'), (after.dropWhile (· ≠ '?')).drop 1, false)

/-- Split `userinfo@host` at the last `@`, as in Go. -/
def splitUser (auth : List Char) : Bool × List Char × List Char :=
  if auth.contains '@' then
    (true, ((auth.reverse.dropWhile (· ≠ '@')).drop 1).reverse,
      (auth.reverse.takeWhile (· ≠ '@')).reverse)
  else (false, [], auth)

def parseURL (cs : List Char) : Except String URLm :=
  if cs.any isCtlSpace then .error "invalid character in URL" else
  if cs.contains '#' || cs.contains '%' then
    .error "URL form not supported by this model" else
  match splitScheme cs with
  | none => .error "URL is not an absolute authority-form URL"
  | some (scheme, after) =>
    let q := splitQuery after
    let auth := q.1.takeWhile (· ≠ '/')
    let path := q.1.dropWhile (· ≠ '/')
    let u := splitUser auth
    if u.2.2.contains '[' || u.2.2.contains ']' then
      .error "bracketed host not supported by this model"
    else if u.2.2.contains ':' &&
        !(u.2.2.reverse.takeWhile (· ≠ ':')).all Char.isDigit then
      .error "invalid port after host"
    else .ok ⟨scheme, u.2.1, u.2.2, path, q.2.1, u.1, q.2.2⟩

/-- `URL.String()` restricted to the modelled fragment. -/
def urlString (u : URLm) : List Char :=
  u.scheme ++ [':', '/', '/'] ++ (if u.hasUser then u.userinfo ++ ['@'] else []) ++
    u.host ++ u.path ++ (if u.forceQuery || !u.query.isEmpty then '?' :: u.query else [])

/-- `URL.Hostname()` (Go `stripPort`): the host up to the first `:`. -/
def hostnameOf (host : List Char) : List Char := host.takeWhile (· ≠ ':')

/-- The `:port` tail of a `host[:port]` string, from the first `:`. -/
def portSuffix (host : List Char) : List Char := host.dropWhile (· ≠ ':')

/-- `strings.Replace(s, old, new, 1)`: rewrite the first occurrence of
`old`; when `old` is empty, insert `new` in front as Go does. -/
def replaceFirst : List Char → List Char → List Char → List Char
  | s, [], new => new ++ s
  | [], _ :: _, _ => []
  | c :: rest, o :: os, new =>
    if (o :: os).isPrefixOf (c :: rest) then new ++ (c :: rest).drop (o :: os).length
    else c :: replaceFirst rest (o :: os) new

inductive HostRewriteError where
  | parseError (msg : String)
  | missingTargetHost
  deriving DecidableEq

instance {α β : Type} [DecidableEq α] [DecidableEq β] : DecidableEq (Except α β) :=
  fun a b =>
    match a, b with
    | .error x, .error y =>
      if h : x = y then isTrue (by rw [h]) else isFalse (by intro hh; cases hh; exact h rfl)
    | .ok x, .ok y =>
      if h : x = y then isTrue (by rw [h]) else isFalse (by intro hh; cases hh; exact h rfl)
    | .error _, .ok _ => isFalse (by intro hh; cases hh)
    | .ok _, .error _ => isFalse (by intro hh; cases hh)

def replaceHostToIP (currentURL ipAddress : List Char) :
    List Char × Option HostRewriteError :=
  match parseURL currentURL with
  | .error e => (currentURL, some (.parseError e))
  | .ok parsedURL =>
    if ipAddress = [] then (currentURL, some .missingTargetHost)
    else
      (urlString { parsedURL with
        host := replaceFirst parsedURL.host (hostnameOf parsedURL.host) ipAddress },
       none)

theorem replaceFirst_nil_old (s new : List Char) : replaceFirst s [] new = new ++ s := by
  cases s <;> rfl

theorem isPrefixOf_append_self (l t : List Char) : l.isPrefixOf (l ++ t) = true := by
  induction l with
  | nil => simp [List.isPrefixOf]
  | cons c cs ih => simp [List.isPrefixOf, ih]

theorem replaceFirst_append (o : Char) (os t new : List Char) :
    replaceFirst ((o :: os) ++ t) (o :: os) new = new ++ t := by
  have hp : (o :: os).isPrefixOf (o :: (os ++ t)) = true := isPrefixOf_append_self (o :: os) t
  show replaceFirst (o :: (os ++ t)) (o :: os) new = new ++ t
  rw [replaceFirst, if_pos hp]
  congr 1
  show ((o :: os) ++ t).drop (o :: os).length = t
  exact List.drop_left (o :: os) t

/-- `strings.Replace(host, stripPort(host), ip, 1)` always rewrites the
leading hostname segment: the hostname is a prefix of `host[:port]`, so its
first occurrence starts at position 0 (when the hostname is empty, Go's
`Replace` prepends, which agrees with this equation as well). -/
theorem replaceFirst_hostname (host ip : List Char) :
    replaceFirst host (hostnameOf host) ip = ip ++ portSuffix host := by
  unfold hostnameOf portSuffix
  have hsplit := List.takeWhile_append_dropWhile (p := fun c => c ≠ ':') (l := host)
  cases hh : host.takeWhile (· ≠ ':') with
  | nil =>
    rw [hh] at hsplit
    rw [replaceFirst_nil_old]
    rw [List.nil_append] at hsplit
    rw [hsplit]
  | cons o os =>
    rw [hh] at hsplit
    conv_lhs => rw [← hsplit]
    exact replaceFirst_append o os _ ip

theorem takeWhile_ne_cons (c : Char) (l : List Char) (hc : c ≠ ':') :
    (c :: l).takeWhile (· ≠ ':') = c :: l.takeWhile (· ≠ ':') := by
  simp [List.takeWhile_cons, hc]

theorem dropWhile_ne_cons (c : Char) (l : List Char) (hc : c ≠ ':') :
    (c :: l).dropWhile (· ≠ ':') = l.dropWhile (· ≠ ':') := by
  simp [List.dropWhile_cons, hc]

theorem takeWhile_ne_cons_colon (l : List Char) :
    (':' :: l).takeWhile (· ≠ ':') = [] := by
  simp [List.takeWhile_cons]

theorem dropWhile_ne_cons_colon (l : List Char) :
    (':' :: l).dropWhile (· ≠ ':') = ':' :: l := by
  simp [List.dropWhile_cons]

theorem takeWhile_append_no_colon (ip tail : List Char) (h : ∀ c ∈ ip, c ≠ ':') :
    (ip ++ tail).takeWhile (· ≠ ':') = ip ++ tail.takeWhile (· ≠ ':') ∧
    (ip ++ tail).dropWhile (· ≠ ':') = tail.dropWhile (· ≠ ':') := by
  induction ip with
  | nil => exact ⟨rfl, rfl⟩
  | cons c cs ih =>
    have hc : c ≠ ':' := h c (List.mem_cons_self ..)
    have ih' := ih fun d hd => h d (List.mem_cons_of_mem _ hd)
    rw [List.cons_append]
    constructor
    · rw [takeWhile_ne_cons _ _ hc, ih'.1, List.cons_append]
    · rw [dropWhile_ne_cons _ _ hc, ih'.2]

theorem portSuffix_no_hostname (host : List Char) :
    (portSuffix host).takeWhile (· ≠ ':') = [] ∧
    (portSuffix host).dropWhile (· ≠ ':') = portSuffix host := by
  unfold portSuffix
  induction host with
  | nil => exact ⟨rfl, rfl⟩
  | cons c cs ih =>
    by_cases hc : c = ':'
    · subst hc
      rw [dropWhile_ne_cons_colon]
      exact ⟨takeWhile_ne_cons_colon cs, dropWhile_ne_cons_colon cs⟩
    · rw [dropWhile_ne_cons _ _ hc]
      exact ih

theorem replaceHostToIP_error_helper (s ip : List Char) (e : String)
    (hp : parseURL s = .error e) :
    replaceHostToIP s ip = (s, some (.parseError e)) := by
  unfold replaceHostToIP
  rw [hp]

/-! ## Claims about `replaceHostToIP` -/

/-- Claim C5: when the URL parses and the replacement host is nonempty (and
colon-free, as an IP address is), the rewriter succeeds with a nil error and
the reassembled URL is the parsed URL with only the hostname segment of the
authority replaced: the new host is the replacement followed by the original
`:port` suffix, so the scheme, userinfo, port, path and query are all
preserved; in particular the spec's concrete example holds. -/
theorem replaceHostToIP_rewrites_hostname (s ip : List Char) (u : URLm)
    (hp : parseURL s = .ok u) (hip : ip ≠ []) (hcolon : ∀ c ∈ ip, c ≠ ':') :
    replaceHostToIP s ip =
      (urlString { u with host := ip ++ portSuffix u.host }, none) ∧
    hostnameOf (ip ++ portSuffix u.host) = ip ∧
    portSuffix (ip ++ portSuffix u.host) = portSuffix u.host ∧
    replaceHostToIP "http://old-host:8080/path?x=1".toList "10.0.0.5".toList =
      ("http://10.0.0.5:8080/path?x=1".toList, none) := by
  refine ⟨?_, ?_, ?_, by decide⟩
  · unfold replaceHostToIP
    rw [hp]
    show (if ip = [] then (s, some HostRewriteError.missingTargetHost)
      else (urlString { u with
        host := replaceFirst u.host (hostnameOf u.host) ip }, none)) = _
    rw [if_neg hip, replaceFirst_hostname]
  · unfold hostnameOf
    rw [(takeWhile_append_no_colon ip (portSuffix u.host) hcolon).1,
      (portSuffix_no_hostname u.host).1, List.append_nil]
  · show (ip ++ portSuffix u.host).dropWhile (· ≠ ':') = portSuffix u.host
    rw [(takeWhile_append_no_colon ip (portSuffix u.host) hcolon).2,
      (portSuffix_no_hostname u.host).2]

/-- Concrete instance of claim C5 at the spec's example URL. -/
theorem replaceHostToIP_rewrites_hostname_witness :
    (parseURL "http://old-host:8080/path?x=1".toList =
      .ok ⟨"http".toList, [], "old-host:8080".toList, "/path".toList,
            "x=1".toList, false, false⟩ ∧
     "10.0.0.5".toList ≠ [] ∧ (∀ c ∈ "10.0.0.5".toList, c ≠ ':')) ∧
    replaceHostToIP "http://old-host:8080/path?x=1".toList "10.0.0.5".toList =
      ("http://10.0.0.5:8080/path?x=1".toList, none) :=
  ⟨⟨by decide, by decide, by decide⟩,
   (replaceHostToIP_rewrites_hostname "http://old-host:8080/path?x=1".toList
      "10.0.0.5".toList
      ⟨"http".toList, [], "old-host:8080".toList, "/path".toList,
        "x=1".toList, false, false⟩
      (by decide) (by decide) (by decide)).2.2.2⟩

/-- Claim C6: when the URL parses but the replacement host is empty, the
rewriter returns the original string unchanged together with the
missing-target-host error. -/
theorem replaceHostToIP_empty_target (s : List Char) (u : URLm)
    (hp : parseURL s = .ok u) :
    replaceHostToIP s [] = (s, some .missingTargetHost) := by
  unfold replaceHostToIP
  rw [hp]
  rfl

/-- Concrete instance of claim C6 at the spec's example URL. -/
theorem replaceHostToIP_empty_target_witness :
    parseURL "http://old-host/path".toList =
      .ok ⟨"http".toList, [], "old-host".toList, "/path".toList, [], false, false⟩ ∧
    replaceHostToIP "http://old-host/path".toList [] =
      ("http://old-host/path".toList, some .missingTargetHost) :=
  ⟨by decide,
   replaceHostToIP_empty_target "http://old-host/path".toList
     ⟨"http".toList, [], "old-host".toList, "/path".toList, [], false, false⟩
     (by decide)⟩

/-- Claim C7: when the URL does not parse, the rewriter returns the original
string unchanged and the parse error, whatever the replacement host is. -/
theorem replaceHostToIP_parse_error (s ip : List Char) (e : String)
    (hp : parseURL s = .error e) :
    replaceHostToIP s ip = (s, some (.parseError e)) :=
  replaceHostToIP_error_helper s ip e hp

/-- Concrete instance of claim C7 on a URL with an invalid host. -/
theorem replaceHostToIP_parse_error_witness :
    parseURL "http://bad host/".toList = .error "invalid character in URL" ∧
    replaceHostToIP "http://bad host/".toList "1.2.3.4".toList =
      ("http://bad host/".toList, some (.parseError "invalid character in URL")) :=
  ⟨by decide,
   replaceHostToIP_parse_error "http://bad host/".toList "1.2.3.4".toList
     "invalid character in URL" (by decide)⟩

/-- Claim C10: the parse check precedes the empty-host check — an unparsable
URL yields the parse error even when the replacement host is empty, and the
missing-target-host error can only arise for URLs that parse. -/
theorem replaceHostToIP_parse_precedence (s : List Char) (e : String)
    (hp : parseURL s = .error e) :
    replaceHostToIP s [] = (s, some (.parseError e)) ∧
    ∀ t ip, (replaceHostToIP t ip).2 = some .missingTargetHost →
      ∃ v, parseURL t = .ok v := by
  refine ⟨replaceHostToIP_error_helper s [] e hp, ?_⟩
  intro t ip h
  cases hpt : parseURL t with
  | error e' =>
    rw [replaceHostToIP_error_helper t ip e' hpt] at h
    cases h
  | ok v => exact ⟨v, rfl⟩

/-- Concrete instance of claim C10: an unparsable URL with an empty
replacement host produces the parse error, not the missing-host error. -/
theorem replaceHostToIP_parse_precedence_witness :
    parseURL "http://bad host/".toList = .error "invalid character in URL" ∧
    replaceHostToIP "http://bad host/".toList [] =
      ("http://bad host/".toList, some (.parseError "invalid character in URL")) :=
  ⟨by decide,
   (replaceHostToIP_parse_precedence "http://bad host/".toList
     "invalid character in URL" (by decide)).1⟩

/-! ## `SimulateRequest`: the request emulator

The Go source is

```
func (t *testUtils) SimulateRequest(ctx context.Context, _ uint64, tc *models.TestCase, testSetID string) (*models.HTTPResp, error) {
    switch tc.Kind {
    case models.HTTP:
        ...
        resp, err := pkg.SimulateHTTP(ctx, *tc, testSetID, t.logger, t.apiTimeout)
        ...
        return resp, err
    }
    return nil, nil
}
```

`models.Kind` is a string type, so the switch is string comparison against
the constant `models.HTTP`.  Modelled from the spec: the constant `models.HTTP`
and the transport `pkg.SimulateHTTP` live outside the embedded files — the
constant is kept as an opaque-valued string `HTTPKind` (its exact text never
matters to the claims) and the transport as an explicit function parameter
`simulateHTTP`, so the theorems quantify over every transport, every context
type and every response/error type.  The second Go parameter (the per-call
timeout) is unnamed (`_`) in the source and is kept here as `timeoutArg`;
note the body passes the construction-time `t.apiTimeout` to the transport,
not `timeoutArg`.  Go `nil` results are `none`. -/

def HTTPKind : String := "Http"

structure TestCase where
  kind : String
  name : String
  httpReqURL : String
  deriving DecidableEq

structure TestUtils where
  apiTimeout : Nat
  deriving DecidableEq

def NewTestUtils (apiTimeout : Nat) : TestUtils := ⟨apiTimeout⟩

def SimulateRequest {Ctx Resp Err : Type}
    (simulateHTTP : Ctx → TestCase → String → Nat → Option Resp × Option Err)
    (t : TestUtils) (ctx : Ctx) (_timeoutArg : Nat) (tc : TestCase)
    (testSetID : String) : Option Resp × Option Err :=
  if tc.kind = HTTPKind then simulateHTTP ctx tc testSetID t.apiTimeout
  else (none, none)

/-! ## Claims about `SimulateRequest` -/

/-- Claim C8: for a test case whose kind is not HTTP, `SimulateRequest`
returns a nil response and a nil error — for every transport, context,
timeout argument and test-set identifier. -/
theorem SimulateRequest_non_http_noop {Ctx Resp Err : Type}
    (simulateHTTP : Ctx → TestCase → String → Nat → Option Resp × Option Err)
    (t : TestUtils) (ctx : Ctx) (timeoutArg : Nat) (tc : TestCase)
    (testSetID : String) (h : tc.kind ≠ HTTPKind) :
    SimulateRequest simulateHTTP t ctx timeoutArg tc testSetID =
      (none, none) := by
  unfold SimulateRequest
  rw [if_neg h]

/-- Concrete instance of claim C8 with a Mongo-kind test case and a
transport that would answer if it were called. -/
theorem SimulateRequest_non_http_noop_witness :
    (TestCase.mk "Mongo" "tc1" "http://h/p").kind ≠ HTTPKind ∧
    SimulateRequest (fun (_ : Unit) _ _ tmo => (some tmo, some "unused error"))
      (NewTestUtils 7) () 3 (TestCase.mk "Mongo" "tc1" "http://h/p") "ts1" =
      ((none : Option Nat), (none : Option String)) :=
  ⟨by decide,
   SimulateRequest_non_http_noop _ (NewTestUtils 7) () 3 _ "ts1" (by decide)⟩

/-- Claim C9 as stated is false: the per-call timeout argument is ignored.
With a transport that reports the bound it was handed, an emulator built
with `apiTimeout = 7` and called with `timeoutSeconds = 3` hands the
transport 7, so the transport's bound does not equal the call's argument. -/
theorem SimulateRequest_timeout_arg_ignored :
    ¬ ∀ (send : Unit → TestCase → String → Nat → Option Nat × Option Unit)
        (t : TestUtils) (a : Nat) (tc : TestCase) (ts : String),
        tc.kind = HTTPKind →
        SimulateRequest send t () a tc ts = send () tc ts a := by
  intro h
  have h7 := h (fun _ _ _ tmo => (some tmo, none)) (NewTestUtils 7) 3
    (TestCase.mk HTTPKind "tc1" "http://h/p") "ts1" rfl
  rw [show SimulateRequest (fun _ _ _ tmo => ((some tmo : Option Nat), (none : Option Unit)))
      (NewTestUtils 7) () 3 (TestCase.mk HTTPKind "tc1" "http://h/p") "ts1" =
      (some 7, none) from rfl] at h7
  cases h7

/-- Claim C9 amended: the bound handed to the HTTP transport is the
`apiTimeout` fixed when the emulator was constructed; the per-call timeout
argument never influences the result, so two calls differing only in it
behave identically. -/
theorem SimulateRequest_uses_constructed_timeout {Ctx Resp Err : Type}
    (simulateHTTP : Ctx → TestCase → String → Nat → Option Resp × Option Err)
    (apiTimeout : Nat) (ctx : Ctx) (a b : Nat) (tc : TestCase) (ts : String)
    (h : tc.kind = HTTPKind) :
    SimulateRequest simulateHTTP (NewTestUtils apiTimeout) ctx a tc ts =
      simulateHTTP ctx tc ts apiTimeout ∧
    SimulateRequest simulateHTTP (NewTestUtils apiTimeout) ctx a tc ts =
      SimulateRequest simulateHTTP (NewTestUtils apiTimeout) ctx b tc ts := by
  unfold SimulateRequest NewTestUtils
  rw [if_pos h]
  exact ⟨rfl, rfl⟩

/-- Concrete instance of the amended claim C9: with `apiTimeout = 7`, calls
with timeout arguments 3 and 99 both hand the transport 7. -/
theorem SimulateRequest_uses_constructed_timeout_witness :
    (TestCase.mk HTTPKind "tc1" "http://h/p").kind = HTTPKind ∧
    (SimulateRequest (fun (_ : Unit) _ _ tmo => (some tmo, (none : Option Unit)))
        (NewTestUtils 7) () 3 (TestCase.mk HTTPKind "tc1" "http://h/p") "ts1" =
      (some 7, none) ∧
     SimulateRequest (fun (_ : Unit) _ _ tmo => (some tmo, (none : Option Unit)))
        (NewTestUtils 7) () 3 (TestCase.mk HTTPKind "tc1" "http://h/p") "ts1" =
      SimulateRequest (fun (_ : Unit) _ _ tmo => (some tmo, (none : Option Unit)))
        (NewTestUtils 7) () 99 (TestCase.mk HTTPKind "tc1" "http://h/p") "ts1") :=
  ⟨rfl,
   SimulateRequest_uses_constructed_timeout _ 7 () 3 99
     (TestCase.mk HTTPKind "tc1" "http://h/p") "ts1" rfl⟩

end Replay
